import Mathlib

/-!
Verification of the declarative resource reconciliation engine of the
`ansible-common-f5` repository.

The development shallowly embeds the two variants of the engine:

* the set-based variant of `ansible_common_f5bigip/f5bigip.py`
  (`F5BigIpBaseObject._update`, `format_value`, the named/unnamed CRUD flows);
* the DeepDiff-based variant of `ansible_common_f5/f5_base.py`
  (`F5BaseObject._update`, `convert`, `F5NamedBaseObject`).

Python strings are modelled as `List Char`; Python values (the spec's
DesiredState values: scalars and flat collections of scalars) as the
inductive type `Value`; Python `dict`s as association lists with nodup
keys.  Structural equality of `Value` models Python `==` on values of the
modelled domain.  The remote system is modelled as an explicit state
(`Remote`) mutated by the CRUD primitives, which are modelled from the
spec's collaborator contract (section 4.4).
-/

/-! ## Python string stripping (`str.strip`) -/

/-- Characters considered whitespace by `str.strip()`. -/
def wsB (c : Char) : Bool := c.isWhitespace

/-- Remove the leading run of characters satisfying `p` (Python `lstrip`). -/
def lstripBy (p : Char → Bool) (s : List Char) : List Char := s.dropWhile p

/-- Remove the trailing run of characters satisfying `p` (Python `rstrip`). -/
def rstripBy (p : Char → Bool) (s : List Char) : List Char :=
  (s.reverse.dropWhile p).reverse

/-- Remove leading and trailing runs of characters satisfying `p`
(Python `str.strip(chars)`). -/
def stripBy (p : Char → Bool) (s : List Char) : List Char := rstripBy p (lstripBy p s)

/-- Python `str.strip()`: trim surrounding whitespace. -/
def pyStrip (s : List Char) : List Char := stripBy wsB s

/-! ## Python values

The spec's DesiredState values are scalars (string/number/bool) or flat
unordered collections of scalars (spec section 3), so the embedding models
exactly that domain.  `Scalar.null` models Python `None`, `Value.list` a
Python `list` of scalars, `Value.pyset` a Python `set` given by the list
of its elements (cardinality and the set operations deduplicate, so the
representation needs no invariant).  Structural equality models Python
`==` on this domain. -/

inductive Scalar where
  | null
  | bool (b : Bool)
  | int (n : Int)
  | str (s : List Char)
deriving DecidableEq

inductive Value where
  | scalar (a : Scalar)
  | list (xs : List Scalar)
  | pyset (xs : List Scalar)
deriving DecidableEq

/-- Abbreviation for the Python `None` value. -/
def Value.null : Value := .scalar .null

/-- Python truthiness (`if value:`). -/
def truthy : Value → Bool
  | .scalar .null => false
  | .scalar (.bool b) => b
  | .scalar (.int n) => decide (¬ n = 0)
  | .scalar (.str s) => decide (¬ s = [])
  | .list xs => decide (¬ xs = [])
  | .pyset xs => decide (¬ xs = [])

/-- The scalar part of `format_value`/`convert`: `value.strip()` on strings,
identity on other scalars. -/
def stripScalar : Scalar → Scalar
  | .str s => .str (pyStrip s)
  | a => a

/-- `format_value` of `ansible_common_f5bigip/f5bigip.py` (lines 427-435):
strings are stripped of surrounding whitespace, lists are turned into sets
(Python `set(value)`, which deduplicates but leaves the elements as they
are), everything else passes through unchanged. -/
def format_value : Value → Value
  | .scalar a => .scalar (stripScalar a)
  | .list xs => .pyset xs.dedup
  | .pyset xs => .pyset xs

/-- `convert` of `ansible_common_f5/f5_base.py` (lines 465-473), restricted to
the modelled value domain: strings are stripped, iterables are rebuilt with
converted elements preserving their type (`type(data)(map(convert, data))`;
rebuilding a `set` deduplicates), other data passes through. -/
def convert : Value → Value
  | .scalar a => .scalar (stripScalar a)
  | .list xs => .list (xs.map stripScalar)
  | .pyset xs => .pyset ((xs.map stripScalar).dedup)

/-! ## Python set operations on `pyset` representations -/

/-- `len` of a Python set represented by the element list `xs`. -/
def pyLen (xs : List Scalar) : Nat := xs.dedup.length

/-- `list(a | b)`: the element list of the union of two Python sets. -/
def pyUnion (xs ys : List Scalar) : List Scalar := (xs ++ ys).dedup

/-- `list(a - b)`: the element list of the difference of two Python sets. -/
def pyDiff (xs ys : List Scalar) : List Scalar :=
  (xs.filter (fun a => decide (¬ a ∈ ys))).dedup

/-! ## Fields, attribute lookup and the diff loop of `F5BigIpBaseObject._update` -/

/-- The `state` module parameter (restricted by `F5_STATE_CHOICES`). -/
inductive TState where
  | present
  | absent
deriving DecidableEq

/-- A Python dict from field names to values (`self.params`), and likewise the
attribute map of a remote object (`self.big` / `self.obj`). -/
abbrev Fields := List (List Char × Value)

/-- The keys of a field map. -/
def keysOf (fs : Fields) : List (List Char) := fs.map Prod.fst

/-- A field map is dict-like when its keys are distinct. -/
abbrev keysNodup (fs : Fields) : Prop := (keysOf fs).Nodup

instance instDecEqExcept {e a : Type} [DecidableEq e] [DecidableEq a] :
    DecidableEq (Except e a) := fun x y =>
  match x, y with
  | .ok u, .ok w =>
    if h : u = w then isTrue (by rw [h])
    else isFalse (by intro hh; injection hh; contradiction)
  | .error u, .error w =>
    if h : u = w then isTrue (by rw [h])
    else isFalse (by intro hh; injection hh; contradiction)
  | .ok _, .error _ => isFalse (by intro hh; cases hh)
  | .error _, .ok _ => isFalse (by intro hh; cases hh)

/-- `hasattr`/`getattr` probing of the remote object: the value stored
under the attribute name `k`, `none` when the attribute is missing. -/
def lookupAttr : Fields → List Char → Option Value
  | [], _ => none
  | (k0, w0) :: rest, k => if k0 = k then some w0 else lookupAttr rest k

/-- The set-valued branch of the diff loop (f5bigip.py lines 195-206):
under `present` the candidate is `cur | desired` kept only if it grew,
under `absent` it is `cur - desired` kept only if it shrank. -/
def diffSet (st : TState) (cxs nxs : List Scalar) : Option Value :=
  match st with
  | .present =>
    let nl := pyUnion cxs nxs
    if pyLen cxs < nl.length then some (.list nl) else none
  | .absent =>
    let nl := pyDiff cxs nxs
    if nl.length < pyLen cxs then some (.list nl) else none

/-- One iteration of the diff loop of `F5BigIpBaseObject._update`
(f5bigip.py lines 184-210) for the field value `v` whose current remote
attribute is `cur_raw` (`none` when `hasattr` is false).  Returns
`.ok none` when the field is not added to `cparams`, `.ok (some w)` when
`cparams[key] = w`, and `.error ()` for the `TypeError` Python raises when
`cur_val | new_val` is applied to a non-set current value. -/
def normCur (cur_raw : Option Value) : Value :=
  match cur_raw with
  | none => Value.null
  | some a => format_value a

def diffStep (st : TState) (curv nv : Value) : Except Unit (Option Value) :=
  match nv with
  | .pyset nxs =>
    match curv with
    | .scalar .null => .ok (diffSet st [] nxs)
    | .pyset cxs => .ok (diffSet st cxs nxs)
    | _ => .error ()
  | _ => .ok (if nv = curv then none else some nv)

def diff_value (st : TState) (cur_raw : Option Value) (v : Value) :
    Except Unit (Option Value) :=
  let new_val := format_value v
  if new_val = Value.null then .ok none
  else diffStep st (normCur cur_raw) new_val

/-- The diff loop of `F5BigIpBaseObject._update` over all params: the
computed `cparams` dict. -/
def compute_cparams (st : TState) (obj : Fields) : Fields → Except Unit Fields
  | [] => .ok []
  | (k, v) :: rest => do
    let d ← diff_value st (lookupAttr obj k) v
    let tail ← compute_cparams st obj rest
    match d with
    | some w => .ok ((k, w) :: tail)
    | none => .ok tail

/-! ## The DeepDiff-based diff loop of `F5BaseObject._update`

`DeepDiff(cur_val, new_val, ignore_order=True, exclude_paths=...)` is an
external library call; on the modelled value domain (scalars and flat
collections of scalars) it reports no difference exactly when the two
values have the same type and, for collections, the same element sets
(`ignore_order=True` ignores both order and repetition).  The
`exclude_paths` entries only concern dict-valued attributes, which are
outside the modelled domain. -/

/-- Model of `DeepDiff(a, b, ignore_order=True)` being empty. -/
def deepEqual (a b : Value) : Bool :=
  match a, b with
  | .list xs, .list ys => decide (xs.toFinset = ys.toFinset)
  | .pyset xs, .pyset ys => decide (xs.toFinset = ys.toFinset)
  | a, b => decide (a = b)

/-- One iteration of the diff loop of `F5BaseObject._update`
(f5_base.py lines 222-232): when the remote object has the attribute the
field is kept iff `DeepDiff(convert(getattr(obj, key)), new_val)` is
non-empty, and the raw desired value is written; when the attribute is
missing the field is kept iff the desired value is truthy. -/
def diff_value_deep (cur_raw : Option Value) (v : Value) : Option Value :=
  if v = Value.null then none
  else
    match cur_raw with
    | some a => if deepEqual (convert a) v then none else some v
    | none => if truthy v then some v else none

/-- The diff loop of `F5BaseObject._update` over all params. -/
def compute_cparams_deep (obj : Fields) (params : Fields) : Fields :=
  params.filterMap (fun kv =>
    (diff_value_deep (lookupAttr obj kv.1) kv.2).map (fun w => (kv.1, w)))

/-! ## The remote system and the CRUD flows

The remote management API is an external collaborator; following the
spec's contract (sections 2, 4.4 and 6) it is modelled as a state holding
whether the resource exists and its current attribute map.  `update`
writes the given fields (last-write-wins), `create` creates the object
with exactly the supplied fields, `delete` removes it.  The booleans of
`RemoteEnv` model whether the remote system actually honours a
create/delete call, which the engine re-checks (claim C8). -/

structure Remote where
  found : Bool
  obj : Fields
deriving DecidableEq

/-- Modelled from the spec: which mutating primitives of the Remote
Resource Client take effect on the remote system. -/
structure RemoteEnv where
  createEffective : Bool
  deleteEffective : Bool
deriving DecidableEq

/-- The per-object configuration: check mode and the required-param sets
(`required_create_params` and friends). -/
structure Config where
  check_mode : Bool
  required_create : List (List Char)
  required_load : List (List Char)
  required_update : List (List Char)
deriving DecidableEq

/-- The error kinds raised by the engine (`AnsibleModuleF5BigIpError` /
`AnsibleF5Error` instances, distinguished by their message). -/
inductive F5Err where
  | missingCreateParams (l : List (List Char))
  | missingLoadParams (l : List (List Char))
  | missingUpdateParams (l : List (List Char))
  | createFailed
  | deleteFailed
  | typeError
deriving DecidableEq

/-- Mutating calls issued to the Remote Resource Client. -/
inductive RCall where
  | createCall
  | updateCall
  | deleteCall
deriving DecidableEq

/-- `_missing_required_params` (f5bigip.py lines 403-408): the required
keys minus the received keys, `none` when nothing is missing. -/
def missing_required_params (rqset : List (List Char)) (params : Fields) :
    Option (List (List Char)) :=
  let diff := rqset.filter (fun k => decide (¬ k ∈ keysOf params))
  if diff = [] then none else some diff

/-- `update(**cparams)` / `modify(**cparams)` on the remote object:
each changed field is written, other fields keep their value. -/
def setField (obj : Fields) (k : List Char) (w : Value) : Fields :=
  obj.filter (fun kv => decide (¬ kv.1 = k)) ++ [(k, w)]

def applyUpdate (obj : Fields) (cparams : Fields) : Fields :=
  cparams.foldl (fun o kv => setField o kv.1 kv.2) obj

/-- `F5BigIpBaseObject._update` (f5bigip.py lines 173-222): read the
object, check required update params, compute the changed params; if some
changed, report `changed=true`, short-circuiting before the remote
`update` call in check mode.  The result carries the reported flag, the
remote state after the call and the list of mutating calls issued. -/
def bigip_update (cfg : Config) (st : TState) (r : Remote) (params : Fields) :
    Except F5Err (Bool × Remote × List RCall) :=
  match missing_required_params cfg.required_load params with
  | some l => .error (.missingLoadParams l)
  | none =>
    match missing_required_params cfg.required_update params with
    | some l => .error (.missingUpdateParams l)
    | none =>
      match compute_cparams st r.obj params with
      | .error _ => .error .typeError
      | .ok cparams =>
        if cparams = [] then .ok (false, r, [])
        else if cfg.check_mode then .ok (true, r, [])
        else .ok (true, { r with obj := applyUpdate r.obj cparams }, [.updateCall])

/-- `F5BaseObject._update` (f5_base.py lines 210-247): same flow with the
DeepDiff-based diff, writing the raw desired values. -/
def base_update (cfg : Config) (r : Remote) (params : Fields) :
    Except F5Err (Bool × Remote × List RCall) :=
  match missing_required_params cfg.required_load params with
  | some l => .error (.missingLoadParams l)
  | none =>
    match missing_required_params cfg.required_update params with
    | some l => .error (.missingUpdateParams l)
    | none =>
      let cparams := compute_cparams_deep r.obj params
      if cparams = [] then .ok (false, r, [])
      else if cfg.check_mode then .ok (true, r, [])
      else .ok (true, { r with obj := applyUpdate r.obj cparams }, [.updateCall])

/-- `_create` of the named objects (f5bigip.py lines 251-271, f5_base.py
lines 290-310, which coincide): drop empty params, check required create
params, short-circuit in check mode, invoke the create primitive and
re-check existence, raising on a failed verification. -/
def named_create (cfg : Config) (env : RemoteEnv) (r : Remote) (params : Fields) :
    Except F5Err (Bool × Remote × List RCall) :=
  let ps := params.filter (fun kv => decide (¬ kv.2 = Value.null))
  match missing_required_params cfg.required_create params with
  | some l => .error (.missingCreateParams l)
  | none =>
    if cfg.check_mode then .ok (true, r, [])
    else
      let r1 := if env.createEffective then { found := true, obj := ps } else r
      if r1.found then .ok (true, r1, [.createCall])
      else .error .createFailed

/-- `_delete` of the named objects (f5bigip.py lines 273-288, f5_base.py
lines 312-327, which coincide): read the object, short-circuit in check
mode, invoke the delete primitive and re-check existence, raising on a
failed verification. -/
def named_delete (cfg : Config) (env : RemoteEnv) (r : Remote) (params : Fields) :
    Except F5Err (Bool × Remote × List RCall) :=
  match missing_required_params cfg.required_load params with
  | some l => .error (.missingLoadParams l)
  | none =>
    if cfg.check_mode then .ok (true, r, [])
    else
      let r1 := if env.deleteEffective then { r with found := false } else r
      if r1.found then .error .deleteFailed
      else .ok (true, r1, [.deleteCall])

/-- `flush` of a named object with the set-based engine: dispatch on the
target state and on existence (`_present`/`_absent`, f5bigip.py lines
290-306). -/
def bigip_named_flush (cfg : Config) (env : RemoteEnv) (st : TState) (r : Remote)
    (params : Fields) : Except F5Err (Bool × Remote × List RCall) :=
  match st with
  | .present =>
    if r.found then bigip_update cfg .present r params
    else named_create cfg env r params
  | .absent =>
    if r.found then named_delete cfg env r params
    else .ok (false, r, [])

/-- `flush` of a named object with the DeepDiff-based engine
(`F5NamedBaseObject._present`/`_absent`, f5_base.py lines 329-345). -/
def base_named_flush (cfg : Config) (env : RemoteEnv) (st : TState) (r : Remote)
    (params : Fields) : Except F5Err (Bool × Remote × List RCall) :=
  match st with
  | .present =>
    if r.found then base_update cfg r params
    else named_create cfg env r params
  | .absent =>
    if r.found then named_delete cfg env r params
    else .ok (false, r, [])

/-- `F5BigIpUnnamedObject._present` (f5bigip.py line 359-360): just `_update`. -/
def bigip_unnamed_present (cfg : Config) (r : Remote) (params : Fields) :
    Except F5Err (Bool × Remote × List RCall) :=
  bigip_update cfg .present r params

/-- `F5BigIpUnnamedObject._absent` (f5bigip.py line 362-363): just `_update`. -/
def bigip_unnamed_absent (cfg : Config) (r : Remote) (params : Fields) :
    Except F5Err (Bool × Remote × List RCall) :=
  bigip_update cfg .absent r params

/-! ## The existence probe -/

/-- Outcome of the remote `exists` primitive: a boolean answer, an
`HTTPError`, or a failure of another class. -/
inductive ProbeOutcome where
  | answer (b : Bool)
  | httpError
  | otherError
deriving DecidableEq

/-- Errors that can escape `_exists`. -/
inductive ProbeErr where
  | uncaught
deriving DecidableEq

/-- `_exists` of the named objects (f5bigip.py lines 239-244, f5_base.py
lines 269-274): the probe is wrapped in `try ... except HTTPError: return
False`; only `HTTPError` is caught, other exceptions propagate. -/
def named_exists_probe : ProbeOutcome → Except ProbeErr Bool
  | .answer b => .ok b
  | .httpError => .ok false
  | .otherError => .error .uncaught

/-! ## The path-based resource identity resolver -/

/-- Python `path.split(sep)` for a one-character separator: no collapsing,
the empty string yields one empty segment. -/
def splitSlash : List Char → List (List Char)
  | [] => [[]]
  | c :: rest =>
    match splitSlash rest with
    | [] => [[]]
    | s :: ss => if c = '/' then [] :: s :: ss else (c :: s) :: ss

/-- Python `path.strip(slash)`: trim leading/trailing separators. -/
def stripSlashes (s : List Char) : List Char := stripBy (fun c => decide (c = '/')) s

/-- A resource identity (`res_id_args`): name, optional partition and
optional sub-path. -/
structure ResId where
  name : List Char
  partition : Option (List Char)
  subPath : Option (List Char)
deriving DecidableEq

/-- Errors of the identity resolver. -/
inductive IdErr where
  | invalidIdentity
deriving DecidableEq

/-- `F5NamedBaseObject._get_resource_id_from_path` (f5_base.py lines
361-379): strip leading/trailing slashes, split on slashes, and build the
identity from 1, 2 or 3 segments; otherwise raise.  `amb` is the ambient
partition (`self.params['partition']` when present and non-null). -/
def base_resource_id_from_path (amb : Option (List Char)) (path : List Char) :
    Except IdErr ResId :=
  match splitSlash (stripSlashes path) with
  | [n] => .ok ⟨n, amb, none⟩
  | [p, n] => .ok ⟨n, some p, none⟩
  | [p, sp, n] => .ok ⟨n, some p, some sp⟩
  | _ => .error .invalidIdentity

/-- `F5BigIpObject._get_resource_id_from_path` (f5bigip.py lines 322-340):
the same construction but splitting the raw path, without stripping the
surrounding slashes. -/
def bigip_resource_id_from_path (amb : Option (List Char)) (path : List Char) :
    Except IdErr ResId :=
  match splitSlash path with
  | [n] => .ok ⟨n, amb, none⟩
  | [p, n] => .ok ⟨n, some p, none⟩
  | [p, sp, n] => .ok ⟨n, some p, some sp⟩
  | _ => .error .invalidIdentity

/-! ## Sample data used by witnesses and counterexamples -/

def sA : Scalar := .str ['a']

def sB : Scalar := .str ['b']

def sC : Scalar := .str ['c']

def kM : List Char := ['m', 's']

/-- A remote object whose `ms` attribute holds the list `[a, b]`. -/
def objAB : Fields := [(kM, .list [sA, sB])]

/-- Desired params asking for `ms = [b, c]`. -/
def paramsBC : Fields := [(kM, .list [sB, sC])]

/-- A remote object whose `ms` attribute holds the list `[a, b, c]`. -/
def objABC : Fields := [(kM, .list [sA, sB, sC])]

/-- The slash predicate used by `stripSlashes`. -/
def slashB (c : Char) : Bool := decide (c = '/')

/-! ## Unnamed (singleton) flows of the DeepDiff-based engine -/

/-- `F5UnnamedBaseObject._present` (f5_base.py lines 399-400): just `_update`. -/
def base_unnamed_present (cfg : Config) (r : Remote) (params : Fields) :
    Except F5Err (Bool × Remote × List RCall) :=
  base_update cfg r params

/-- `F5UnnamedBaseObject._absent` (f5_base.py lines 402-403): just `_update`. -/
def base_unnamed_absent (cfg : Config) (r : Remote) (params : Fields) :
    Except F5Err (Bool × Remote × List RCall) :=
  base_update cfg r params

theorem dropWhile_dropWhile_self (p : Char → Bool) (l : List Char) :
    (l.dropWhile p).dropWhile p = l.dropWhile p := by
  induction l with
  | nil => rfl
  | cons c cs ih =>
    by_cases h : p c
    · simp [List.dropWhile_cons, h, ih]
    · simp [List.dropWhile_cons, h]

theorem lstripBy_lstripBy (p : Char → Bool) (s : List Char) :
    lstripBy p (lstripBy p s) = lstripBy p s :=
  dropWhile_dropWhile_self p s

theorem rstripBy_rstripBy (p : Char → Bool) (s : List Char) :
    rstripBy p (rstripBy p s) = rstripBy p s := by
  simp [rstripBy, List.reverse_reverse, dropWhile_dropWhile_self]

theorem length_dropWhile_le (p : Char → Bool) (l : List Char) :
    (l.dropWhile p).length ≤ l.length := by
  induction l with
  | nil => simp
  | cons d ds ih =>
    by_cases hd : p d
    · rw [List.dropWhile_cons, if_pos hd]; exact le_trans ih (by simp)
    · rw [List.dropWhile_cons, if_neg (by simp [hd])]

/-- `rstripBy` returns a prefix of its argument, the rest being all-`p`. -/
theorem rstripBy_decomp (p : Char → Bool) (s : List Char) :
    ∃ t, s = rstripBy p s ++ t ∧ ∀ c ∈ t, p c = true := by
  refine ⟨(s.reverse.takeWhile p).reverse, ?_, ?_⟩
  · have h := List.takeWhile_append_dropWhile (p := p) (l := s.reverse)
    have h2 : s.reverse.reverse =
        ((s.reverse.takeWhile p) ++ (s.reverse.dropWhile p)).reverse := by rw [h]
    rw [List.reverse_reverse, List.reverse_append] at h2
    simpa [rstripBy] using h2
  · intro c hc
    exact List.mem_takeWhile_imp (by simpa using hc)

/-- On a list that is already left-stripped, `rstripBy` yields a list that is
still left-stripped. -/
theorem lstripBy_rstripBy_of_lstripped (p : Char → Bool) (u : List Char)
    (hu : lstripBy p u = u) : lstripBy p (rstripBy p u) = rstripBy p u := by
  obtain ⟨t, hdec, -⟩ := rstripBy_decomp p u
  cases hr : rstripBy p u with
  | nil => simp [lstripBy]
  | cons c cs =>
    rw [hr] at hdec
    have hu' : u = c :: (cs ++ t) := by simpa using hdec
    have hpc : p c = false := by
      cases hc : p c
      · rfl
      · exfalso
        have hthis := hu
        rw [hu', lstripBy, List.dropWhile_cons, if_pos hc] at hthis
        have h1 := length_dropWhile_le p (cs ++ t)
        rw [hthis] at h1
        simp at h1
    rw [lstripBy, List.dropWhile_cons, if_neg (by simp [hpc])]

/-- Python `strip` is idempotent. -/
theorem stripBy_stripBy (p : Char → Bool) (s : List Char) :
    stripBy p (stripBy p s) = stripBy p s := by
  unfold stripBy
  rw [lstripBy_rstripBy_of_lstripped p _ (lstripBy_lstripBy p s), rstripBy_rstripBy]

theorem pyStrip_pyStrip (s : List Char) : pyStrip (pyStrip s) = pyStrip s :=
  stripBy_stripBy wsB s

/-- `stripBy` removes exactly a leading and a trailing all-`p` run. -/
theorem stripBy_decomp (p : Char → Bool) (s : List Char) :
    ∃ pre post, s = pre ++ stripBy p s ++ post ∧
      (∀ c ∈ pre, p c = true) ∧ (∀ c ∈ post, p c = true) := by
  obtain ⟨t, hdec, hall⟩ := rstripBy_decomp p (s.dropWhile p)
  refine ⟨s.takeWhile p, t, ?_, ?_, hall⟩
  · conv_lhs => rw [← List.takeWhile_append_dropWhile (p := p) (l := s), hdec]
    rw [List.append_assoc]
    rfl
  · intro c hc; exact List.mem_takeWhile_imp hc

theorem stripScalar_stripScalar (a : Scalar) :
    stripScalar (stripScalar a) = stripScalar a := by
  cases a <;> simp [stripScalar, pyStrip_pyStrip]

theorem format_value_format_value (v : Value) :
    format_value (format_value v) = format_value v := by
  cases v with
  | scalar a => simp [format_value, stripScalar_stripScalar]
  | list xs => simp [format_value]
  | pyset xs => simp [format_value]

theorem format_value_eq_null_iff (v : Value) :
    format_value v = .null ↔ v = .null := by
  cases v with
  | scalar a => cases a <;> simp [format_value, stripScalar, Value.null]
  | list xs => simp [format_value, Value.null]
  | pyset xs => simp [format_value, Value.null]

theorem map_stripScalar_dedup_map (xs : List Scalar) :
    ((xs.map stripScalar).dedup).map stripScalar = (xs.map stripScalar).dedup := by
  apply List.map_congr_left ?_ |>.trans (List.map_id _)
  intro a ha
  have : a ∈ xs.map stripScalar := List.mem_dedup.mp ha
  obtain ⟨b, -, rfl⟩ := List.mem_map.mp this
  exact stripScalar_stripScalar b

theorem convert_convert (v : Value) : convert (convert v) = convert v := by
  cases v with
  | scalar a => simp [convert, stripScalar_stripScalar]
  | list xs =>
    simp only [convert, List.map_map]
    congr 1
    apply List.map_congr_left
    intro a ha
    exact stripScalar_stripScalar a
  | pyset xs =>
    simp only [convert]
    rw [map_stripScalar_dedup_map, List.dedup_idem]

theorem pyLen_eq_card (xs : List Scalar) : pyLen xs = xs.toFinset.card := by
  rw [pyLen, List.card_toFinset]

theorem toFinset_dedup (xs : List Scalar) : xs.dedup.toFinset = xs.toFinset := by
  ext a; simp [List.mem_toFinset, List.mem_dedup]

theorem pyUnion_toFinset (xs ys : List Scalar) :
    (pyUnion xs ys).toFinset = xs.toFinset ∪ ys.toFinset := by
  rw [pyUnion, toFinset_dedup, List.toFinset_append]

theorem pyUnion_length (xs ys : List Scalar) :
    (pyUnion xs ys).length = (xs.toFinset ∪ ys.toFinset).card := by
  have h1 : (pyUnion xs ys).length = pyLen (pyUnion xs ys) := by
    rw [pyLen, pyUnion, List.dedup_idem]
  rw [h1, pyLen_eq_card, pyUnion_toFinset]

theorem pyDiff_toFinset (xs ys : List Scalar) :
    (pyDiff xs ys).toFinset = xs.toFinset \ ys.toFinset := by
  rw [pyDiff, toFinset_dedup, List.toFinset_filter]
  ext a
  simp [List.mem_toFinset, Finset.mem_sdiff, Finset.mem_filter]

theorem pyDiff_length (xs ys : List Scalar) :
    (pyDiff xs ys).length = (xs.toFinset \ ys.toFinset).card := by
  have h1 : (pyDiff xs ys).length = pyLen (pyDiff xs ys) := by
    rw [pyLen, pyDiff, List.dedup_idem]
  rw [h1, pyLen_eq_card, pyDiff_toFinset]

/-! ## Lemmas about field maps -/

theorem keysOf_cons (k0 : List Char) (w0 : Value) (rest : Fields) :
    keysOf ((k0, w0) :: rest) = k0 :: keysOf rest := rfl

theorem keysNodup_cons (k0 : List Char) (w0 : Value) (rest : Fields) :
    keysNodup ((k0, w0) :: rest) ↔ (¬ k0 ∈ keysOf rest) ∧ keysNodup rest := by
  simp [keysNodup, keysOf_cons, List.nodup_cons]

theorem mem_keysOf_of_mem {fs : Fields} {k : List Char} {w : Value}
    (h : (k, w) ∈ fs) : k ∈ keysOf fs :=
  List.mem_map_of_mem Prod.fst h

theorem lookupAttr_eq_none_of_not_mem (obj : Fields) (k : List Char)
    (h : ¬ k ∈ keysOf obj) : lookupAttr obj k = none := by
  induction obj with
  | nil => rfl
  | cons kv rest ih =>
    obtain ⟨k0, w0⟩ := kv
    have hk0 : ¬ k0 = k := by
      intro hh; exact h (by simp [keysOf_cons, hh])
    rw [lookupAttr, if_neg hk0]
    exact ih (fun hm => h (by rw [keysOf_cons]; exact List.mem_cons_of_mem _ hm))

theorem lookupAttr_setField_self (obj : Fields) (k : List Char) (w : Value) :
    lookupAttr (setField obj k w) k = some w := by
  induction obj with
  | nil => simp [setField, lookupAttr]
  | cons kv rest ih =>
    obtain ⟨k0, w0⟩ := kv
    by_cases h : k0 = k
    · simpa [setField, List.filter_cons, h] using ih
    · simp only [setField, List.filter_cons]
      rw [if_pos (by simp [h]), List.cons_append, lookupAttr, if_neg h]
      simpa [setField] using ih

theorem lookupAttr_cons (k0 : List Char) (w0 : Value) (rest : Fields)
    (k : List Char) :
    lookupAttr ((k0, w0) :: rest) k =
      if k0 = k then some w0 else lookupAttr rest k := rfl

theorem lookupAttr_setField_ne (obj : Fields) (k q : List Char) (w : Value)
    (h : ¬ q = k) : lookupAttr (setField obj k w) q = lookupAttr obj q := by
  have hkq : ¬ k = q := fun hh => h hh.symm
  induction obj with
  | nil =>
    show lookupAttr [(k, w)] q = none
    rw [lookupAttr_cons, if_neg hkq]
    rfl
  | cons kv rest ih =>
    obtain ⟨k0, w0⟩ := kv
    by_cases hk0 : k0 = k
    · subst hk0
      simp only [setField, List.filter_cons]
      rw [if_neg (by simp), lookupAttr_cons, if_neg hkq]
      simpa [setField] using ih
    · simp only [setField, List.filter_cons]
      rw [if_pos (by simp [hk0]), List.cons_append, lookupAttr_cons, lookupAttr_cons]
      by_cases hq : k0 = q
      · simp [hq]
      · rw [if_neg hq, if_neg hq]
        simpa [setField] using ih

theorem lookupAttr_applyUpdate_not_mem (obj : Fields) (cparams : Fields)
    (k : List Char) (h : ¬ k ∈ keysOf cparams) :
    lookupAttr (applyUpdate obj cparams) k = lookupAttr obj k := by
  induction cparams generalizing obj with
  | nil => rfl
  | cons kv rest ih =>
    obtain ⟨k0, w0⟩ := kv
    have hk0 : ¬ k = k0 := fun hh => h (by simp [keysOf_cons, hh])
    have hrest : ¬ k ∈ keysOf rest :=
      fun hm => h (by rw [keysOf_cons]; exact List.mem_cons_of_mem _ hm)
    show lookupAttr (applyUpdate (setField obj k0 w0) rest) k = lookupAttr obj k
    rw [ih (setField obj k0 w0) hrest, lookupAttr_setField_ne obj k0 k w0 hk0]

theorem lookupAttr_applyUpdate_mem (obj : Fields) (cparams : Fields)
    (k : List Char) (w : Value) (hnd : keysNodup cparams)
    (hmem : (k, w) ∈ cparams) :
    lookupAttr (applyUpdate obj cparams) k = some w := by
  induction cparams generalizing obj with
  | nil => cases hmem
  | cons kv rest ih =>
    obtain ⟨k0, w0⟩ := kv
    obtain ⟨hnmem, hnd'⟩ := (keysNodup_cons k0 w0 rest).mp hnd
    rcases List.mem_cons.mp hmem with heq | hrest
    · injection heq with h1 h2
      subst h1; subst h2
      show lookupAttr (applyUpdate (setField obj k w) rest) k = some w
      rw [lookupAttr_applyUpdate_not_mem _ rest k hnmem, lookupAttr_setField_self]
    · show lookupAttr (applyUpdate (setField obj k0 w0) rest) k = some w
      exact ih (setField obj k0 w0) hnd' hrest

/-! ## Lemmas about the set-based diff -/

theorem diffSet_present_eq (cxs nxs : List Scalar) :
    diffSet .present cxs nxs =
      if cxs.toFinset.card < (cxs.toFinset ∪ nxs.toFinset).card
      then some (.list (pyUnion cxs nxs)) else none := by
  simp only [diffSet]
  rw [pyLen_eq_card, pyUnion_length]

theorem diffSet_absent_eq (cxs nxs : List Scalar) :
    diffSet .absent cxs nxs =
      if (cxs.toFinset \ nxs.toFinset).card < cxs.toFinset.card
      then some (.list (pyDiff cxs nxs)) else none := by
  simp only [diffSet]
  rw [pyLen_eq_card, pyDiff_length]

theorem pyUnion_dedup (xs ys : List Scalar) : (pyUnion xs ys).dedup = pyUnion xs ys := by
  rw [pyUnion, List.dedup_idem]

theorem pyDiff_dedup (xs ys : List Scalar) : (pyDiff xs ys).dedup = pyDiff xs ys := by
  rw [pyDiff, List.dedup_idem]

/-- Writing the candidate list back and re-diffing yields no change: the
union (resp. difference) is a fixed point of the set-valued diff. -/
theorem diffSet_stable (st : TState) (cxs nxs : List Scalar) (w : Value)
    (h : diffSet st cxs nxs = some w) :
    ∃ nl, w = .list nl ∧ nl.dedup = nl ∧ diffSet st nl.dedup nxs = none := by
  cases st with
  | present =>
    rw [diffSet_present_eq] at h
    by_cases hc : cxs.toFinset.card < (cxs.toFinset ∪ nxs.toFinset).card
    · rw [if_pos hc] at h
      injection h with hw
      refine ⟨pyUnion cxs nxs, hw.symm, pyUnion_dedup cxs nxs, ?_⟩
      rw [pyUnion_dedup, diffSet_present_eq, if_neg]
      rw [pyUnion_toFinset]
      have hsub : nxs.toFinset ⊆ cxs.toFinset ∪ nxs.toFinset := Finset.subset_union_right
      rw [Finset.union_eq_left.mpr hsub]
      exact lt_irrefl _
    · rw [if_neg hc] at h; cases h
  | absent =>
    rw [diffSet_absent_eq] at h
    by_cases hc : (cxs.toFinset \ nxs.toFinset).card < cxs.toFinset.card
    · rw [if_pos hc] at h
      injection h with hw
      refine ⟨pyDiff cxs nxs, hw.symm, pyDiff_dedup cxs nxs, ?_⟩
      rw [pyDiff_dedup, diffSet_absent_eq, if_neg]
      rw [pyDiff_toFinset, Finset.sdiff_idem]
      exact lt_irrefl _
    · rw [if_neg hc] at h; cases h

theorem format_value_ne_list (v : Value) (xs : List Scalar) :
    ¬ format_value v = .list xs := by
  cases v <;> simp [format_value]

theorem diffStep_scalar (st : TState) (curv : Value) (a : Scalar) :
    diffStep st curv (.scalar a) =
      .ok (if Value.scalar a = curv then none else some (.scalar a)) := rfl

theorem normCur_some (w : Value) : normCur (some w) = format_value w := rfl

/-- If a field was included in `cparams` and written, re-diffing the same
desired value against the written value yields no change. -/
theorem diff_value_stable (st : TState) (cur : Option Value) (v w : Value)
    (h : diff_value st cur v = .ok (some w)) :
    diff_value st (some w) v = .ok none := by
  by_cases h0 : format_value v = Value.null
  · rw [diff_value] at h
    simp only [h0, if_pos] at h
    cases h
  · rw [diff_value] at h
    simp only [if_neg h0] at h
    rw [diff_value]
    simp only [if_neg h0]
    cases hnv : format_value v with
    | scalar a =>
      rw [hnv, diffStep_scalar] at h
      injection h with h1
      by_cases he : Value.scalar a = normCur cur
      · rw [if_pos he] at h1; cases h1
      · rw [if_neg he] at h1
        injection h1 with h2
        subst h2
        rw [diffStep_scalar, normCur_some]
        have hw : format_value (Value.scalar a) = Value.scalar a := by
          rw [← hnv, format_value_format_value]
        rw [hw, if_pos rfl]
    | list xs => exact absurd hnv (format_value_ne_list v xs)
    | pyset nxs =>
      rw [hnv] at h
      generalize normCur cur = cv at h
      have hgoal : ∀ nl : List Scalar, nl.dedup = nl → diffSet st nl.dedup nxs = none →
          w = Value.list nl → diffStep st (normCur (some w)) (.pyset nxs) = .ok none := by
        intro nl hded hnone hw
        subst hw
        rw [normCur_some]
        show diffStep st (format_value (.list nl)) (.pyset nxs) = .ok none
        show diffStep st (.pyset nl.dedup) (.pyset nxs) = .ok none
        show Except.ok (diffSet st nl.dedup nxs) = .ok none
        rw [hnone]
      cases cv with
      | scalar a =>
        cases a with
        | null =>
          injection h with h1
          obtain ⟨nl, hw, hded, hnone⟩ := diffSet_stable st [] nxs w h1
          exact hgoal nl hded hnone hw
        | bool b => cases h
        | int n => cases h
        | str s => cases h
      | list xs => cases h
      | pyset cxs =>
        injection h with h1
        obtain ⟨nl, hw, hded, hnone⟩ := diffSet_stable st cxs nxs w h1
        exact hgoal nl hded hnone hw

/-- Under `present`, diffing a desired value against itself (as the stored
attribute) yields no change. -/
theorem diff_value_self_present (v : Value) :
    diff_value .present (some v) v = .ok none := by
  by_cases h0 : format_value v = Value.null
  · rw [diff_value]; simp only [h0, if_pos]
  · rw [diff_value]
    simp only [if_neg h0]
    rw [normCur_some]
    cases hnv : format_value v with
    | scalar a =>
      rw [diffStep_scalar, if_pos rfl]
    | list xs => exact absurd hnv (format_value_ne_list v xs)
    | pyset nxs =>
      show Except.ok (diffSet .present nxs nxs) = .ok none
      rw [diffSet_present_eq, if_neg]
      rw [Finset.union_self]
      exact lt_irrefl _

/-! ## Lemmas about `compute_cparams` -/

theorem compute_cparams_nil (st : TState) (obj : Fields) :
    compute_cparams st obj [] = .ok [] := rfl

theorem compute_cparams_cons (st : TState) (obj : Fields) (k : List Char)
    (v : Value) (rest : Fields) :
    compute_cparams st obj ((k, v) :: rest) =
      (diff_value st (lookupAttr obj k) v).bind (fun d =>
        (compute_cparams st obj rest).bind (fun tail =>
          match d with
          | some w => .ok ((k, w) :: tail)
          | none => .ok tail)) := rfl

/-- The computed `cparams` only depends on the attributes at the param keys. -/
theorem compute_cparams_congr (st : TState) (obj1 obj2 : Fields) (params : Fields)
    (h : ∀ kv ∈ params, lookupAttr obj1 kv.1 = lookupAttr obj2 kv.1) :
    compute_cparams st obj1 params = compute_cparams st obj2 params := by
  induction params with
  | nil => rfl
  | cons kv rest ih =>
    obtain ⟨k, v⟩ := kv
    rw [compute_cparams_cons, compute_cparams_cons]
    rw [h (k, v) (List.mem_cons_self _ _)]
    rw [ih (fun kv hm => h kv (List.mem_cons_of_mem _ hm))]

/-- The keys of the computed `cparams` form a sublist of the param keys. -/
theorem compute_cparams_keys_sublist (st : TState) (obj : Fields) :
    ∀ (params cps : Fields), compute_cparams st obj params = .ok cps →
      (keysOf cps).Sublist (keysOf params) := by
  intro params
  induction params with
  | nil =>
    intro cps h
    rw [compute_cparams_nil] at h
    injection h with h1
    subst h1
    exact List.Sublist.refl _
  | cons kv rest ih =>
    intro cps h
    obtain ⟨k, v⟩ := kv
    rw [compute_cparams_cons] at h
    cases hd : diff_value st (lookupAttr obj k) v with
    | error e => rw [hd] at h; cases h
    | ok d =>
      rw [hd] at h
      cases hr : compute_cparams st obj rest with
      | error e => rw [hr] at h; cases h
      | ok tc =>
        rw [hr] at h
        cases d with
        | some w =>
          simp only [Except.bind] at h
          injection h with h1
          subst h1
          rw [keysOf_cons, keysOf_cons]
          exact (ih tc hr).cons₂ k
        | none =>
          simp only [Except.bind] at h
          injection h with h1
          subst h1
          rw [keysOf_cons]
          exact (ih _ hr).cons k

/-- In a dict-like param map, the entry of `cparams` at key `k` is exactly
the diff decision for the desired value at `k`. -/
theorem compute_cparams_lookup (st : TState) (obj : Fields) (k : List Char) (v : Value) :
    ∀ (params cps : Fields), keysNodup params → (k, v) ∈ params →
      compute_cparams st obj params = .ok cps →
      ∃ d, diff_value st (lookupAttr obj k) v = .ok d ∧ lookupAttr cps k = d := by
  intro params
  induction params with
  | nil => intro cps _ hmem _; cases hmem
  | cons kv rest ih =>
    intro cps hnd hmem h
    obtain ⟨k0, v0⟩ := kv
    obtain ⟨hnmem, hnd2⟩ := (keysNodup_cons k0 v0 rest).mp hnd
    rw [compute_cparams_cons] at h
    cases hd : diff_value st (lookupAttr obj k0) v0 with
    | error e => rw [hd] at h; cases h
    | ok d0 =>
      rw [hd] at h
      cases hr : compute_cparams st obj rest with
      | error e => rw [hr] at h; cases h
      | ok tc =>
        rw [hr] at h
        rcases List.mem_cons.mp hmem with heq | hrest
        · injection heq with h1 h2
          subst h1; subst h2
          refine ⟨d0, hd, ?_⟩
          have hknotc : ¬ k ∈ keysOf tc :=
            fun hm => hnmem ((compute_cparams_keys_sublist st obj rest tc hr).mem hm)
          cases d0 with
          | some w =>
            simp only [Except.bind] at h
            injection h with h1
            subst h1
            rw [lookupAttr_cons, if_pos rfl]
          | none =>
            simp only [Except.bind] at h
            injection h with h1
            subst h1
            exact lookupAttr_eq_none_of_not_mem tc k hknotc
        · have hk0 : ¬ k0 = k := by
            intro hh
            exact hnmem (hh ▸ mem_keysOf_of_mem hrest)
          cases d0 with
          | some w =>
            simp only [Except.bind] at h
            injection h with h1
            subst h1
            rw [lookupAttr_cons, if_neg hk0]
            exact ih tc hnd2 hrest hr
          | none =>
            simp only [Except.bind] at h
            injection h with h1
            subst h1
            exact ih _ hnd2 hrest hr

/-- If every field diffs to "no change", the computed `cparams` is empty. -/
theorem compute_cparams_all_none (st : TState) (obj : Fields) (params : Fields)
    (h : ∀ kv ∈ params, diff_value st (lookupAttr obj kv.1) kv.2 = .ok none) :
    compute_cparams st obj params = .ok [] := by
  induction params with
  | nil => rfl
  | cons kv rest ih =>
    obtain ⟨k, v⟩ := kv
    rw [compute_cparams_cons, h (k, v) (List.mem_cons_self _ _),
      ih (fun kv hm => h kv (List.mem_cons_of_mem _ hm))]
    rfl

/-- After applying the computed `cparams` to the remote object, re-diffing
the same params yields an empty `cparams`: one successful update settles the
desired state. -/
theorem compute_cparams_applyUpdate (st : TState) :
    ∀ (params : Fields), keysNodup params → ∀ (obj cps : Fields),
      compute_cparams st obj params = .ok cps →
      compute_cparams st (applyUpdate obj cps) params = .ok [] := by
  intro params
  induction params with
  | nil => intro _ obj cps _; rfl
  | cons kv rest ih =>
    intro hnd obj cps h
    obtain ⟨k, v⟩ := kv
    obtain ⟨hnmem, hnd2⟩ := (keysNodup_cons k v rest).mp hnd
    rw [compute_cparams_cons] at h
    cases hd : diff_value st (lookupAttr obj k) v with
    | error e => rw [hd] at h; cases h
    | ok d0 =>
      rw [hd] at h
      cases hr : compute_cparams st obj rest with
      | error e => rw [hr] at h; cases h
      | ok tc =>
        rw [hr] at h
        have hknotc : ¬ k ∈ keysOf tc :=
          fun hm => hnmem ((compute_cparams_keys_sublist st obj rest tc hr).mem hm)
        cases d0 with
        | none =>
          simp only [Except.bind] at h
          injection h with h1
          subst h1
          rw [compute_cparams_cons]
          rw [lookupAttr_applyUpdate_not_mem obj tc k hknotc, hd]
          rw [ih hnd2 obj tc hr]
          rfl
        | some w =>
          simp only [Except.bind] at h
          injection h with h1
          subst h1
          show compute_cparams st (applyUpdate (setField obj k w) tc) ((k, v) :: rest) =
            .ok []
          rw [compute_cparams_cons]
          have hlk : lookupAttr (applyUpdate (setField obj k w) tc) k = some w := by
            rw [lookupAttr_applyUpdate_not_mem _ tc k hknotc, lookupAttr_setField_self]
          rw [hlk, diff_value_stable st (lookupAttr obj k) v w hd]
          have hr2 : compute_cparams st (setField obj k w) rest = .ok tc := by
            rw [compute_cparams_congr st (setField obj k w) obj rest ?_]
            · exact hr
            · intro kv hm
              apply lookupAttr_setField_ne
              intro hh
              exact hnmem (hh ▸ mem_keysOf_of_mem hm)
          rw [ih hnd2 (setField obj k w) tc hr2]
          rfl

theorem diff_value_of_null (st : TState) (cur : Option Value) :
    diff_value st cur Value.null = .ok none := by
  rw [diff_value]
  simp only [format_value_eq_null_iff Value.null |>.mpr rfl, if_pos]

theorem lookupAttr_filter_nonnull (k : List Char) (v : Value) :
    ∀ params : Fields, keysNodup params → (k, v) ∈ params → ¬ v = Value.null →
      lookupAttr (params.filter (fun kv => decide (¬ kv.2 = Value.null))) k = some v := by
  intro params
  induction params with
  | nil => intro _ hmem _; cases hmem
  | cons kv rest ih =>
    intro hnd hmem hv
    obtain ⟨k0, v0⟩ := kv
    obtain ⟨hnmem, hnd2⟩ := (keysNodup_cons k0 v0 rest).mp hnd
    rcases List.mem_cons.mp hmem with heq | hrest
    · injection heq with h1 h2
      subst h1; subst h2
      rw [List.filter_cons, if_pos (by simpa using hv), lookupAttr_cons, if_pos rfl]
    · have hk0 : ¬ k0 = k := by
        intro hh
        exact hnmem (hh ▸ mem_keysOf_of_mem hrest)
      rw [List.filter_cons]
      by_cases h0 : v0 = Value.null
      · rw [if_neg (by simpa using h0)]
        exact ih hnd2 hrest hv
      · rw [if_pos (by simpa using h0), lookupAttr_cons, if_neg hk0]
        exact ih hnd2 hrest hv

/-- A freshly created object (holding exactly the non-null params) produces
an empty `present` diff for the same params. -/
theorem compute_cparams_after_create (params : Fields) (hnd : keysNodup params) :
    compute_cparams .present
      (params.filter (fun kv => decide (¬ kv.2 = Value.null))) params = .ok [] := by
  apply compute_cparams_all_none
  intro kv hm
  obtain ⟨k, v⟩ := kv
  by_cases hv : v = Value.null
  · subst hv
    exact diff_value_of_null _ _
  · rw [lookupAttr_filter_nonnull k v params hnd hm hv]
    exact diff_value_self_present v

theorem splitSlash_ne_nil (s : List Char) : ¬ splitSlash s = [] := by
  induction s with
  | nil => simp [splitSlash]
  | cons c rest ih =>
    rw [splitSlash]
    cases h : splitSlash rest with
    | nil => simp
    | cons s0 ss => by_cases hc : c = '/' <;> simp [hc]

theorem splitSlash_slashfree (a : List Char) (ha : ¬ '/' ∈ a) :
    splitSlash a = [a] := by
  induction a with
  | nil => rfl
  | cons c rest ih =>
    have hc : ¬ c = '/' := fun hh => ha (by simp [hh])
    have hrest : ¬ '/' ∈ rest := fun hm => ha (List.mem_cons_of_mem _ hm)
    rw [splitSlash, ih hrest]
    simp [hc]

theorem splitSlash_append_slash (a rest : List Char) (ha : ¬ '/' ∈ a) :
    splitSlash (a ++ '/' :: rest) = a :: splitSlash rest := by
  induction a with
  | nil =>
    rw [List.nil_append, splitSlash]
    cases h : splitSlash rest with
    | nil => exact absurd h (splitSlash_ne_nil rest)
    | cons s0 ss => simp
  | cons c a2 ih =>
    have hc : ¬ c = '/' := fun hh => ha (by simp [hh])
    have ha2 : ¬ '/' ∈ a2 := fun hm => ha (List.mem_cons_of_mem _ hm)
    rw [List.cons_append, splitSlash, ih ha2]
    simp [hc]

theorem dropWhile_append_all (p : Char → Bool) (lead y : List Char)
    (h : ∀ c ∈ lead, p c = true) :
    (lead ++ y).dropWhile p = y.dropWhile p := by
  induction lead with
  | nil => rfl
  | cons c rest ih =>
    rw [List.cons_append, List.dropWhile_cons, if_pos (h c (List.mem_cons_self _ _))]
    exact ih (fun d hd => h d (List.mem_cons_of_mem _ hd))

/-- Stripping a string whose core starts and ends with non-stripped
characters removes exactly the surrounding runs. -/
theorem stripBy_sandwich (p : Char → Bool) (lead x trail : List Char)
    (hx : ¬ x = [])
    (hlead : ∀ c ∈ lead, p c = true) (htrail : ∀ c ∈ trail, p c = true)
    (hhead : ∀ c, x.head? = some c → p c = false)
    (hlast : ∀ c, x.getLast? = some c → p c = false) :
    stripBy p (lead ++ x ++ trail) = x := by
  obtain ⟨c, x2, rfl⟩ : ∃ c x2, x = c :: x2 := by
    cases x with
    | nil => exact absurd rfl hx
    | cons c x2 => exact ⟨c, x2, rfl⟩
  have hc : p c = false := hhead c rfl
  have h1 : lstripBy p (lead ++ (c :: x2) ++ trail) = (c :: x2) ++ trail := by
    rw [lstripBy, List.append_assoc, dropWhile_append_all p lead _ hlead,
      List.cons_append, List.dropWhile_cons, if_neg (by simp [hc])]
  rw [stripBy, h1]
  cases hxr : (c :: x2).reverse with
  | nil => exact absurd hxr (by simp)
  | cons d y2 =>
    have hd : p d = false := by
      apply hlast
      rw [← List.head?_reverse, hxr]
      rfl
    rw [rstripBy, List.reverse_append, dropWhile_append_all p trail.reverse _
      (fun e he => htrail e (List.mem_reverse.mp he)), hxr, List.dropWhile_cons,
      if_neg (by simp [hd]), ← hxr, List.reverse_reverse]

/-! ## Claim theorems -/

/-- Claim C1: for every set-valued field `f` present in DesiredState with a
non-null normalized value, and every normalized current remote value `cur`
of `f` (absent treated as the empty set), reconciling with
`targetState=present` includes `f` in the ChangeSet iff
`|cur ∪ desired(f)| > |cur|`, and the value written for `f` is the union
`cur ∪ desired(f)` — never the desired set alone replacing `cur`, and
never a no-op when the union is strictly larger than `cur`.
(Set-based engine, `F5BigIpBaseObject._update`.) -/
theorem spec_c1 (obj params cps : Fields) (k : List Char) (v : Value)
    (nxs cxs : List Scalar)
    (hnd : keysNodup params) (hmem : (k, v) ∈ params)
    (hnv : format_value v = .pyset nxs)
    (hcur : (normCur (lookupAttr obj k) = Value.null ∧ cxs = []) ∨
      normCur (lookupAttr obj k) = .pyset cxs)
    (h : compute_cparams .present obj params = .ok cps) :
    lookupAttr cps k =
      (if cxs.toFinset.card < (cxs.toFinset ∪ nxs.toFinset).card
       then some (.list (pyUnion cxs nxs)) else none) ∧
    (pyUnion cxs nxs).toFinset = cxs.toFinset ∪ nxs.toFinset := by
  obtain ⟨d, hd, hl⟩ := compute_cparams_lookup .present obj k v params cps hnd hmem h
  rw [diff_value] at hd
  rw [if_neg (by rw [hnv]; simp [Value.null])] at hd
  rw [hnv] at hd
  refine ⟨?_, pyUnion_toFinset cxs nxs⟩
  rcases hcur with ⟨hnull, rfl⟩ | hset
  · rw [hnull] at hd
    have hd2 : (Except.ok (diffSet .present [] nxs) : Except Unit (Option Value)) =
      .ok d := hd
    injection hd2 with h1
    rw [hl, ← h1, diffSet_present_eq]
  · rw [hset] at hd
    have hd2 : (Except.ok (diffSet .present cxs nxs) : Except Unit (Option Value)) =
      .ok d := hd
    injection hd2 with h1
    rw [hl, ← h1, diffSet_present_eq]

theorem spec_c1_witness :
    keysNodup paramsBC ∧ (kM, Value.list [sB, sC]) ∈ paramsBC ∧
    format_value (Value.list [sB, sC]) = .pyset [sB, sC] ∧
    normCur (lookupAttr objAB kM) = .pyset [sA, sB] ∧
    compute_cparams .present objAB paramsBC =
      .ok [(kM, .list (pyUnion [sA, sB] [sB, sC]))] ∧
    (lookupAttr [(kM, Value.list (pyUnion [sA, sB] [sB, sC]))] kM =
      (if ([sA, sB] : List Scalar).toFinset.card <
          (([sA, sB] : List Scalar).toFinset ∪ ([sB, sC] : List Scalar).toFinset).card
       then some (.list (pyUnion [sA, sB] [sB, sC])) else none) ∧
     (pyUnion [sA, sB] [sB, sC]).toFinset =
       ([sA, sB] : List Scalar).toFinset ∪ ([sB, sC] : List Scalar).toFinset) := by
  refine ⟨by decide, by decide, by decide, by decide, by decide, ?_⟩
  exact spec_c1 objAB paramsBC [(kM, .list (pyUnion [sA, sB] [sB, sC]))] kM
    (Value.list [sB, sC]) [sB, sC] [sA, sB]
    (by decide) (by decide) (by decide) (Or.inr (by decide)) (by decide)

/-- Claim C2: for every set-valued field `f` present in DesiredState with a
non-null normalized value, and every normalized current remote value `cur`
of `f`, reconciling with `targetState=absent` includes `f` in the
ChangeSet iff `|cur − desired(f)| < |cur|`, and the value written for `f`
is the set difference `cur − desired(f)` (only caller-requested elements
are removed, all others are kept).
(Set-based engine, `F5BigIpBaseObject._update`.) -/
theorem spec_c2 (obj params cps : Fields) (k : List Char) (v : Value)
    (nxs cxs : List Scalar)
    (hnd : keysNodup params) (hmem : (k, v) ∈ params)
    (hnv : format_value v = .pyset nxs)
    (hcur : (normCur (lookupAttr obj k) = Value.null ∧ cxs = []) ∨
      normCur (lookupAttr obj k) = .pyset cxs)
    (h : compute_cparams .absent obj params = .ok cps) :
    lookupAttr cps k =
      (if (cxs.toFinset \ nxs.toFinset).card < cxs.toFinset.card
       then some (.list (pyDiff cxs nxs)) else none) ∧
    (pyDiff cxs nxs).toFinset = cxs.toFinset \ nxs.toFinset := by
  obtain ⟨d, hd, hl⟩ := compute_cparams_lookup .absent obj k v params cps hnd hmem h
  rw [diff_value] at hd
  rw [if_neg (by rw [hnv]; simp [Value.null])] at hd
  rw [hnv] at hd
  refine ⟨?_, pyDiff_toFinset cxs nxs⟩
  rcases hcur with ⟨hnull, rfl⟩ | hset
  · rw [hnull] at hd
    have hd2 : (Except.ok (diffSet .absent [] nxs) : Except Unit (Option Value)) =
      .ok d := hd
    injection hd2 with h1
    rw [hl, ← h1, diffSet_absent_eq]
  · rw [hset] at hd
    have hd2 : (Except.ok (diffSet .absent cxs nxs) : Except Unit (Option Value)) =
      .ok d := hd
    injection hd2 with h1
    rw [hl, ← h1, diffSet_absent_eq]

theorem spec_c2_witness :
    keysNodup paramsBC ∧ (kM, Value.list [sB, sC]) ∈ paramsBC ∧
    format_value (Value.list [sB, sC]) = .pyset [sB, sC] ∧
    normCur (lookupAttr objABC kM) = .pyset [sA, sB, sC] ∧
    compute_cparams .absent objABC paramsBC =
      .ok [(kM, .list (pyDiff [sA, sB, sC] [sB, sC]))] ∧
    pyDiff [sA, sB, sC] [sB, sC] = [sA] ∧
    (lookupAttr [(kM, Value.list (pyDiff [sA, sB, sC] [sB, sC]))] kM =
      (if (([sA, sB, sC] : List Scalar).toFinset \
            ([sB, sC] : List Scalar).toFinset).card <
          ([sA, sB, sC] : List Scalar).toFinset.card
       then some (.list (pyDiff [sA, sB, sC] [sB, sC])) else none) ∧
     (pyDiff [sA, sB, sC] [sB, sC]).toFinset =
       ([sA, sB, sC] : List Scalar).toFinset \ ([sB, sC] : List Scalar).toFinset) := by
  refine ⟨by decide, by decide, by decide, by decide, by decide, by decide, ?_⟩
  exact spec_c2 objABC paramsBC [(kM, .list (pyDiff [sA, sB, sC] [sB, sC]))] kM
    (Value.list [sB, sC]) [sB, sC] [sA, sB, sC]
    (by decide) (by decide) (by decide) (Or.inr (by decide)) (by decide)

/-- Claim C6: whenever the remote `exists` primitive raises an `HTTPError`
during the existence probe, `_exists` returns false (the resource is
treated as non-existent) rather than propagating the error or reporting
presence; non-`HTTPError` failures are not caught by the probe; a normal
answer passes through. -/
theorem spec_c6 :
    named_exists_probe .httpError = .ok false ∧
    (∀ b, named_exists_probe (.answer b) = .ok b) ∧
    named_exists_probe .otherError = .error .uncaught :=
  ⟨rfl, fun _ => rfl, rfl⟩

/-- Counterexample for claim C9: the claim says sequences are coerced to
unordered sets *whose elements are themselves normalized*.  `format_value`
builds the set from the raw elements (the untrimmed string stays
untrimmed), and `convert` normalizes the elements but keeps the sequence a
list, not a set. -/
theorem spec_c9_counterexample :
    format_value (.list [.str [' ', 'a']]) = .pyset [.str [' ', 'a']] ∧
    ¬ format_value (.list [.str [' ', 'a']]) = .pyset [.str ['a']] ∧
    stripScalar (.str [' ', 'a']) = .str ['a'] ∧
    convert (.list [.str [' ', 'a']]) = .list [.str ['a']] ∧
    ¬ convert (.list [.str [' ', 'a']]) = .pyset [.str ['a']] := by
  refine ⟨by decide, by decide, by decide, ?_, by decide⟩
  show Value.list ([Scalar.str [' ', 'a']].map stripScalar) = .list [.str ['a']]
  decide

/-- Claim C9 (amended): `normalizeValue` trims surrounding whitespace from
strings and passes other scalars through unchanged; `format_value` coerces
sequences to unordered sets built from the *raw* elements, while `convert`
normalizes the elements but preserves the sequence type; both are
idempotent. -/
theorem spec_c9 :
    (∀ v, format_value (format_value v) = format_value v) ∧
    (∀ v, convert (convert v) = convert v) ∧
    (∀ s : List Char, ∃ pre post,
      s = pre ++ pyStrip s ++ post ∧
      (∀ c ∈ pre, wsB c = true) ∧ (∀ c ∈ post, wsB c = true) ∧
      format_value (.scalar (.str s)) = .scalar (.str (pyStrip s)) ∧
      convert (.scalar (.str s)) = .scalar (.str (pyStrip s))) ∧
    (∀ n : Int, format_value (.scalar (.int n)) = .scalar (.int n) ∧
      convert (.scalar (.int n)) = .scalar (.int n)) ∧
    (∀ b : Bool, format_value (.scalar (.bool b)) = .scalar (.bool b) ∧
      convert (.scalar (.bool b)) = .scalar (.bool b)) ∧
    (format_value Value.null = Value.null ∧ convert Value.null = Value.null) ∧
    (∀ xs : List Scalar,
      format_value (.list xs) = .pyset xs.dedup ∧
      xs.dedup.toFinset = xs.toFinset ∧
      convert (.list xs) = .list (xs.map stripScalar) ∧
      convert (.pyset xs) = .pyset ((xs.map stripScalar).dedup)) := by
  refine ⟨format_value_format_value, convert_convert, ?_, ?_, ?_, ⟨rfl, rfl⟩, ?_⟩
  · intro s
    obtain ⟨pre, post, hdec, hpre, hpost⟩ := stripBy_decomp wsB s
    exact ⟨pre, post, hdec, hpre, hpost, rfl, rfl⟩
  · intro n; exact ⟨rfl, rfl⟩
  · intro b; exact ⟨rfl, rfl⟩
  · intro xs; exact ⟨rfl, toFinset_dedup xs, rfl, rfl⟩

theorem head?_append_of_head? (a b : List Char) (c : Char) (h : a.head? = some c) :
    (a ++ b).head? = some c := by
  cases a with
  | nil => cases h
  | cons x xs => simpa using h

theorem getLast?_append_slash (a b : List Char) (hb : ¬ b = []) :
    (a ++ '/' :: b).getLast? = b.getLast? := by
  rw [show a ++ '/' :: b = (a ++ ['/']) ++ b by simp,
    List.getLast?_append_of_ne_nil _ hb]

theorem stripSlashes_sandwich (lead x trail : List Char)
    (hx : ¬ x = [])
    (hlead : ∀ c ∈ lead, c = '/') (htrail : ∀ c ∈ trail, c = '/')
    (hhead : ∀ c, x.head? = some c → ¬ c = '/')
    (hlast : ∀ c, x.getLast? = some c → ¬ c = '/') :
    stripSlashes (lead ++ x ++ trail) = x := by
  apply stripBy_sandwich (fun c => decide (c = '/')) lead x trail hx
  · intro c hc; simpa using hlead c hc
  · intro c hc; simpa using htrail c hc
  · intro c hc; simpa using hhead c hc
  · intro c hc; simpa using hlast c hc

/-- Counterexample for claim C7: the `f5bigip.py` resolver does not strip
leading/trailing separators before splitting.  The path `/a/b` has two
segments after trimming, so the claim requires `{partition: a, name: b}`,
but the resolver splits the raw path into three segments (the first
empty) and yields `{partition: "", subPath: a, name: b}`. -/
theorem spec_c7_counterexample :
    splitSlash (stripSlashes ['/', 'a', '/', 'b']) = [['a'], ['b']] ∧
    bigip_resource_id_from_path none ['/', 'a', '/', 'b'] =
      .ok ⟨['b'], some [], some ['a']⟩ ∧
    ¬ bigip_resource_id_from_path none ['/', 'a', '/', 'b'] =
      .ok ⟨['b'], some ['a'], none⟩ := by
  refine ⟨?_, by decide, by decide⟩
  show splitSlash (stripBy slashB ['/', 'a', '/', 'b']) = [['a'], ['b']]
  decide

/-- Claim C7 (amended): for the `f5_base.py` resolver, which strips the
surrounding separators, a path with 1 trimmed segment yields `{name}` plus
the ambient partition, 2 segments yield `{partition, name}`, 3 segments
yield `{partition, subPath, name}`, and 4 or more segments raise
`InvalidIdentityError`; splitting never produces 0 segments (an empty path
yields one empty segment), so the 0-segment error case is unreachable.
The `f5bigip.py` resolver splits the raw path without trimming, so paths
with surrounding separators produce empty segments counted literally (see
the counterexample); on separator-free multi-segment paths it agrees. -/
theorem spec_c7 (amb : Option (List Char)) (lead trail a b c d : List Char)
    (hlead : ∀ ch ∈ lead, ch = '/') (htrail : ∀ ch ∈ trail, ch = '/')
    (ha : ¬ a = []) (ha2 : ¬ '/' ∈ a)
    (hb : ¬ b = []) (hb2 : ¬ '/' ∈ b)
    (hc : ¬ c = []) (hc2 : ¬ '/' ∈ c)
    (hd : ¬ d = []) (hd2 : ¬ '/' ∈ d) :
    base_resource_id_from_path amb (lead ++ a ++ trail) = .ok ⟨a, amb, none⟩ ∧
    base_resource_id_from_path amb (lead ++ (a ++ '/' :: b) ++ trail) =
      .ok ⟨b, some a, none⟩ ∧
    base_resource_id_from_path amb (lead ++ (a ++ '/' :: (b ++ '/' :: c)) ++ trail) =
      .ok ⟨c, some a, some b⟩ ∧
    base_resource_id_from_path amb
        (lead ++ (a ++ '/' :: (b ++ '/' :: (c ++ '/' :: d))) ++ trail) =
      .error .invalidIdentity ∧
    bigip_resource_id_from_path amb (a ++ '/' :: b) = .ok ⟨b, some a, none⟩ ∧
    (∀ p : List Char, ¬ splitSlash (stripSlashes p) = []) := by
  have hheadA : ∀ x : List Char, ¬ x = [] → ¬ '/' ∈ x →
      ∀ ch, x.head? = some ch → ¬ ch = '/' := by
    intro x hx hx2 ch hch hhc
    exact hx2 (hhc ▸ List.mem_of_mem_head? hch)
  have hlastA : ∀ x : List Char, ¬ x = [] → ¬ '/' ∈ x →
      ∀ ch, x.getLast? = some ch → ¬ ch = '/' := by
    intro x hx hx2 ch hch hhc
    exact hx2 (hhc ▸ List.mem_of_mem_getLast? hch)
  obtain ⟨a0, a2, rfl⟩ : ∃ a0 a2, a = a0 :: a2 := by
    cases a with
    | nil => exact absurd rfl ha
    | cons a0 a2 => exact ⟨a0, a2, rfl⟩
  refine ⟨?_, ?_, ?_, ?_, ?_, ?_⟩
  · rw [base_resource_id_from_path,
      stripSlashes_sandwich lead _ trail ha hlead htrail (hheadA _ ha ha2)
        (hlastA _ ha ha2),
      splitSlash_slashfree _ ha2]
  · rw [base_resource_id_from_path,
      stripSlashes_sandwich lead _ trail (by simp) hlead htrail
        (fun ch hch => hheadA _ ha ha2 ch (by simpa using hch))
        (fun ch hch => hlastA _ hb hb2 ch
          (by rwa [getLast?_append_slash _ b hb] at hch)),
      splitSlash_append_slash _ _ ha2, splitSlash_slashfree _ hb2]
  · rw [base_resource_id_from_path,
      stripSlashes_sandwich lead _ trail (by simp) hlead htrail
        (fun ch hch => hheadA _ ha ha2 ch (by simpa using hch))
        (fun ch hch => hlastA _ hc hc2 ch (by
          rwa [getLast?_append_slash _ (b ++ '/' :: c) (by simp),
            getLast?_append_slash b c hc] at hch)),
      splitSlash_append_slash _ _ ha2, splitSlash_append_slash _ _ hb2,
      splitSlash_slashfree _ hc2]
  · rw [base_resource_id_from_path,
      stripSlashes_sandwich lead _ trail (by simp) hlead htrail
        (fun ch hch => hheadA _ ha ha2 ch (by simpa using hch))
        (fun ch hch => hlastA _ hd hd2 ch (by
          rwa [getLast?_append_slash _ (b ++ '/' :: (c ++ '/' :: d)) (by simp),
            getLast?_append_slash b (c ++ '/' :: d) (by simp),
            getLast?_append_slash c d hd] at hch)),
      splitSlash_append_slash _ _ ha2, splitSlash_append_slash _ _ hb2,
      splitSlash_append_slash _ _ hc2, splitSlash_slashfree _ hd2]
  · rw [bigip_resource_id_from_path, splitSlash_append_slash _ _ ha2,
      splitSlash_slashfree _ hb2]
  · intro p
    exact splitSlash_ne_nil (stripSlashes p)

theorem spec_c7_witness :
    base_resource_id_from_path none (['/'] ++ ['a'] ++ []) =
      .ok ⟨['a'], none, none⟩ ∧
    base_resource_id_from_path none (['/'] ++ (['a'] ++ '/' :: ['b']) ++ []) =
      .ok ⟨['b'], some ['a'], none⟩ ∧
    base_resource_id_from_path none
        (['/'] ++ (['a'] ++ '/' :: (['b'] ++ '/' :: ['c'])) ++ []) =
      .ok ⟨['c'], some ['a'], some ['b']⟩ ∧
    base_resource_id_from_path none
        (['/'] ++ (['a'] ++ '/' :: (['b'] ++ '/' :: (['c'] ++ '/' :: ['d']))) ++ []) =
      .error .invalidIdentity ∧
    bigip_resource_id_from_path none (['a'] ++ '/' :: ['b']) =
      .ok ⟨['b'], some ['a'], none⟩ := by
  have h := spec_c7 none ['/'] [] ['a'] ['b'] ['c'] ['d']
    (by decide) (by decide) (by decide) (by decide) (by decide) (by decide)
    (by decide) (by decide) (by decide) (by decide)
  exact ⟨h.1, h.2.1, h.2.2.1, h.2.2.2.1, h.2.2.2.2.1⟩

/-- Claim C8: when not in dry-run, after invoking the remote create
primitive `_create` re-checks existence and raises the create-verification
error if the resource is still absent, returning changed=true only when
the re-check confirms the object; symmetrically `_delete` re-checks
existence, raises the delete-verification error if the resource is still
present, and returns changed=true only when it is gone. -/
theorem spec_c8 (cfg : Config) (hcm : cfg.check_mode = false) :
    (∀ env r params b r2 tr, named_create cfg env r params = .ok (b, r2, tr) →
      b = true ∧ r2.found = true ∧ tr = [.createCall]) ∧
    (∀ env r params, env.createEffective = false → r.found = false →
      missing_required_params cfg.required_create params = none →
      named_create cfg env r params = .error .createFailed) ∧
    (∀ env r params b r2 tr, named_delete cfg env r params = .ok (b, r2, tr) →
      b = true ∧ r2.found = false ∧ tr = [.deleteCall]) ∧
    (∀ env r params, env.deleteEffective = false → r.found = true →
      missing_required_params cfg.required_load params = none →
      named_delete cfg env r params = .error .deleteFailed) := by
  refine ⟨?_, ?_, ?_, ?_⟩
  · intro env r params b r2 tr h
    rw [named_create] at h
    cases hm : missing_required_params cfg.required_create params with
    | some l => rw [hm] at h; cases h
    | none =>
      rw [hm, hcm] at h
      cases hce : env.createEffective with
      | true =>
        rw [hce] at h
        simp at h
        exact ⟨h.1, by rw [← h.2.1], h.2.2.symm⟩
      | false =>
        rw [hce] at h
        simp at h
        cases hrf : r.found with
        | true =>
          rw [hrf] at h
          simp at h
          exact ⟨h.1, by rw [← h.2.1]; exact hrf, h.2.2.symm⟩
        | false =>
          rw [hrf] at h
          simp at h
  · intro env r params hce hrf hm
    rw [named_create, hm, hcm, hce]
    simp [hrf]
  · intro env r params b r2 tr h
    rw [named_delete] at h
    cases hm : missing_required_params cfg.required_load params with
    | some l => rw [hm] at h; cases h
    | none =>
      rw [hm, hcm] at h
      cases hde : env.deleteEffective with
      | true =>
        rw [hde] at h
        simp at h
        exact ⟨h.1, by rw [← h.2.1], h.2.2.symm⟩
      | false =>
        rw [hde] at h
        simp at h
        cases hrf : r.found with
        | true =>
          rw [hrf] at h
          simp at h
        | false =>
          rw [hrf] at h
          simp at h
          exact ⟨h.1, by rw [← h.2.1]; exact hrf, h.2.2.symm⟩
  · intro env r params hde hrf hm
    rw [named_delete, hm, hcm, hde]
    simp [hrf]

theorem spec_c8_witness :
    ((⟨false, [], [], []⟩ : Config).check_mode = false) ∧
    named_create ⟨false, [], [], []⟩ ⟨false, false⟩ ⟨false, []⟩ [] =
      .error .createFailed ∧
    named_delete ⟨false, [], [], []⟩ ⟨false, false⟩ ⟨true, []⟩ [] =
      .error .deleteFailed := by
  have h := spec_c8 ⟨false, [], [], []⟩ rfl
  exact ⟨rfl, h.2.1 ⟨false, false⟩ ⟨false, []⟩ [] rfl rfl (by decide),
    h.2.2.2 ⟨false, false⟩ ⟨true, []⟩ [] rfl rfl (by decide)⟩

/-! ## Dry-run short-circuit lemmas -/

theorem bigip_update_checkmode (rc rl ru : List (List Char)) (st : TState)
    (r : Remote) (params : Fields) :
    bigip_update ⟨true, rc, rl, ru⟩ st r params =
      (bigip_update ⟨false, rc, rl, ru⟩ st r params).map (fun x => (x.1, r, [])) := by
  rw [bigip_update, bigip_update]
  cases hm : missing_required_params rl params with
  | some l => rfl
  | none =>
    cases hu : missing_required_params ru params with
    | some l => rfl
    | none =>
      cases hcp : compute_cparams st r.obj params with
      | error e => rfl
      | ok cparams =>
        by_cases hnil : cparams = []
        · simp [hnil, Except.map]
        · simp [hnil, Except.map]

theorem base_update_checkmode (rc rl ru : List (List Char))
    (r : Remote) (params : Fields) :
    base_update ⟨true, rc, rl, ru⟩ r params =
      (base_update ⟨false, rc, rl, ru⟩ r params).map (fun x => (x.1, r, [])) := by
  rw [base_update, base_update]
  cases hm : missing_required_params rl params with
  | some l => rfl
  | none =>
    cases hu : missing_required_params ru params with
    | some l => rfl
    | none =>
      by_cases hnil : compute_cparams_deep r.obj params = []
      · simp [hnil, Except.map]
      · simp [hnil, Except.map]

theorem named_create_checkmode (rc rl ru : List (List Char)) (env : RemoteEnv)
    (r : Remote) (params : Fields) (hce : env.createEffective = true) :
    named_create ⟨true, rc, rl, ru⟩ env r params =
      (named_create ⟨false, rc, rl, ru⟩ env r params).map (fun x => (x.1, r, [])) := by
  rw [named_create, named_create]
  cases hm : missing_required_params rc params with
  | some l => rfl
  | none => simp [hce, Except.map]

theorem named_delete_checkmode (rc rl ru : List (List Char)) (env : RemoteEnv)
    (r : Remote) (params : Fields) (hde : env.deleteEffective = true) :
    named_delete ⟨true, rc, rl, ru⟩ env r params =
      (named_delete ⟨false, rc, rl, ru⟩ env r params).map (fun x => (x.1, r, [])) := by
  rw [named_delete, named_delete]
  cases hm : missing_required_params rl params with
  | some l => rfl
  | none => simp [hde, Except.map]

/-- Claim C4: a reconciliation run with dry-run (check mode) enabled
returns the same `changed` value as the identical run with dry-run
disabled, while invoking zero create, update, or delete primitives on the
remote client and leaving the remote state untouched; for updates the
short-circuit occurs only after the ChangeSet has been computed (the
required-params checks and the diff run first), so the reported flag, and
any error, are identical to the real run.  Proven for both the set-based
and the DeepDiff-based named flows, with a remote system that honours
create/delete calls. -/
theorem spec_c4 (cfg : Config) (env : RemoteEnv) (st : TState) (r : Remote)
    (params : Fields)
    (hce : env.createEffective = true) (hde : env.deleteEffective = true) :
    bigip_named_flush { cfg with check_mode := true } env st r params =
      (bigip_named_flush { cfg with check_mode := false } env st r params).map
        (fun x => (x.1, r, [])) ∧
    base_named_flush { cfg with check_mode := true } env st r params =
      (base_named_flush { cfg with check_mode := false } env st r params).map
        (fun x => (x.1, r, [])) := by
  obtain ⟨cm, rc, rl, ru⟩ := cfg
  constructor
  · show bigip_named_flush ⟨true, rc, rl, ru⟩ env st r params =
      (bigip_named_flush ⟨false, rc, rl, ru⟩ env st r params).map (fun x => (x.1, r, []))
    cases st with
    | present =>
      rw [bigip_named_flush, bigip_named_flush]
      by_cases hf : r.found
      · simp only [hf, if_true]
        exact bigip_update_checkmode rc rl ru .present r params
      · simp only [hf, if_false]
        exact named_create_checkmode rc rl ru env r params hce
    | absent =>
      rw [bigip_named_flush, bigip_named_flush]
      by_cases hf : r.found
      · simp only [hf, if_true]
        exact named_delete_checkmode rc rl ru env r params hde
      · simp only [hf, if_false]
        rfl
  · show base_named_flush ⟨true, rc, rl, ru⟩ env st r params =
      (base_named_flush ⟨false, rc, rl, ru⟩ env st r params).map (fun x => (x.1, r, []))
    cases st with
    | present =>
      rw [base_named_flush, base_named_flush]
      by_cases hf : r.found
      · simp only [hf, if_true]
        exact base_update_checkmode rc rl ru r params
      · simp only [hf, if_false]
        exact named_create_checkmode rc rl ru env r params hce
    | absent =>
      rw [base_named_flush, base_named_flush]
      by_cases hf : r.found
      · simp only [hf, if_true]
        exact named_delete_checkmode rc rl ru env r params hde
      · simp only [hf, if_false]
        rfl

theorem spec_c4_witness :
    ((⟨true, true⟩ : RemoteEnv).createEffective = true ∧
     (⟨true, true⟩ : RemoteEnv).deleteEffective = true) ∧
    bigip_named_flush { (⟨false, [], [], []⟩ : Config) with check_mode := true }
        ⟨true, true⟩ .present ⟨true, objAB⟩ paramsBC =
      (bigip_named_flush { (⟨false, [], [], []⟩ : Config) with check_mode := false }
        ⟨true, true⟩ .present ⟨true, objAB⟩ paramsBC).map
          (fun x => (x.1, (⟨true, objAB⟩ : Remote), [])) := by
  refine ⟨⟨rfl, rfl⟩, ?_⟩
  exact (spec_c4 ⟨false, [], [], []⟩ ⟨true, true⟩ .present ⟨true, objAB⟩ paramsBC
    rfl rfl).1

/-- When the desired value is not set-valued, the set-based diff decision
does not depend on the target state. -/
theorem diff_value_state_indep (st1 st2 : TState) (cur : Option Value) (v : Value)
    (h : ∀ xs, ¬ format_value v = .pyset xs) :
    diff_value st1 cur v = diff_value st2 cur v := by
  rw [diff_value, diff_value]
  by_cases h0 : format_value v = Value.null
  · simp [h0]
  · simp only [if_neg h0]
    cases hnv : format_value v with
    | scalar a => rw [diffStep_scalar, diffStep_scalar]
    | list xs => exact absurd hnv (format_value_ne_list v xs)
    | pyset xs => exact absurd hnv (h xs)

theorem compute_cparams_state_indep (st1 st2 : TState) (obj : Fields) :
    ∀ params : Fields, (∀ kv ∈ params, ∀ xs, ¬ format_value kv.2 = .pyset xs) →
      compute_cparams st1 obj params = compute_cparams st2 obj params := by
  intro params
  induction params with
  | nil => intro _; rfl
  | cons kv rest ih =>
    intro h
    obtain ⟨k, v⟩ := kv
    rw [compute_cparams_cons, compute_cparams_cons,
      diff_value_state_indep st1 st2 _ v (h (k, v) (List.mem_cons_self _ _)),
      ih (fun kv hm => h kv (List.mem_cons_of_mem _ hm))]

/-- Claim C10: for an unnamed (singleton) resource, reconciling with
`targetState=absent` is neither a delete nor an unconditional no-op:
`_absent` runs exactly the update/diff path (with the absent-mode
set-subtraction rule for set-valued fields in the set-based engine; the
DeepDiff engine's `_absent` is literally `_update` as well), so it may
issue a remote update call and return changed=true, never a delete, and
never flips existence. -/
theorem spec_c10 (cfg : Config) (r : Remote) (params : Fields) :
    (∀ b r2 tr, bigip_unnamed_absent cfg r params = .ok (b, r2, tr) →
      (tr = [] ∨ tr = [.updateCall]) ∧ r2.found = r.found ∧
      (b = false → r2 = r ∧ tr = [])) ∧
    ((∀ kv ∈ params, ∀ xs, ¬ format_value kv.2 = .pyset xs) →
      bigip_unnamed_absent cfg r params = bigip_unnamed_present cfg r params) ∧
    (∀ cfg2 r2 params2, base_unnamed_absent cfg2 r2 params2 =
      base_unnamed_present cfg2 r2 params2) ∧
    (bigip_unnamed_absent ⟨false, [], [], []⟩ ⟨true, objABC⟩ paramsBC =
      .ok (true, ⟨true, [(kM, .list [sA])]⟩, [.updateCall])) := by
  refine ⟨?_, ?_, fun _ _ _ => rfl, by decide⟩
  · intro b r2 tr h
    rw [bigip_unnamed_absent, bigip_update] at h
    cases hm : missing_required_params cfg.required_load params with
    | some l => rw [hm] at h; cases h
    | none =>
      rw [hm] at h
      cases hu : missing_required_params cfg.required_update params with
      | some l => rw [hu] at h; cases h
      | none =>
        rw [hu] at h
        cases hcp : compute_cparams .absent r.obj params with
        | error e => rw [hcp] at h; cases h
        | ok cparams =>
          rw [hcp] at h
          dsimp only at h
          by_cases hnil : cparams = []
          · rw [if_pos hnil] at h
            injection h with h1
            injection h1 with hb h2
            injection h2 with hr ht
            exact ⟨Or.inl ht.symm, by rw [← hr], fun _ => ⟨hr.symm, ht.symm⟩⟩
          · rw [if_neg hnil] at h
            by_cases hcm : cfg.check_mode
            · simp only [hcm, if_true] at h
              injection h with h1
              injection h1 with hb h2
              injection h2 with hr ht
              exact ⟨Or.inl ht.symm, by rw [← hr],
                fun hb2 => absurd (hb ▸ hb2) (by simp)⟩
            · simp only [hcm, if_false] at h
              injection h with h1
              injection h1 with hb h2
              injection h2 with hr ht
              refine ⟨Or.inr ht.symm, by rw [← hr], ?_⟩
              intro hb2
              rw [← hb] at hb2
              cases hb2
  · intro h
    rw [bigip_unnamed_absent, bigip_unnamed_present, bigip_update, bigip_update,
      compute_cparams_state_indep .absent .present r.obj params h]

theorem spec_c10_witness :
    bigip_unnamed_absent ⟨false, [], [], []⟩ ⟨true, [(['d'], .scalar (.str ['x']))]⟩
        [(['d'], .scalar (.str ['y']))] =
      .ok (true, ⟨true, [(['d'], .scalar (.str ['y']))]⟩, [.updateCall]) ∧
    ((⟨true, [(['d'], .scalar (.str ['x']))]⟩ : Remote).found = true ∧
      [RCall.updateCall] = [.updateCall]) ∧
    bigip_unnamed_absent ⟨false, [], [], []⟩ ⟨true, [(['d'], .scalar (.str ['x']))]⟩
        [(['d'], .scalar (.str ['y']))] =
      bigip_unnamed_present ⟨false, [], [], []⟩ ⟨true, [(['d'], .scalar (.str ['x']))]⟩
        [(['d'], .scalar (.str ['y']))] := by
  have h := spec_c10 ⟨false, [], [], []⟩ ⟨true, [(['d'], .scalar (.str ['x']))]⟩
    [(['d'], .scalar (.str ['y']))]
  have hsc : ∀ kv ∈ [((['d'] : List Char), Value.scalar (.str ['y']))],
      ∀ xs, ¬ format_value kv.2 = Value.pyset xs := by
    intro kv hkv xs hc
    rw [List.mem_singleton] at hkv
    subst hkv
    simp [format_value, stripScalar] at hc
  refine ⟨by decide, ?_, h.2.1 hsc⟩
  have h2 := h.1 true ⟨true, [(['d'], .scalar (.str ['y']))]⟩ [.updateCall] (by decide)
  exact ⟨h2.2.1, rfl⟩

/-! ## Lemmas about `compute_cparams_deep` -/

theorem compute_cparams_deep_nil (obj : Fields) : compute_cparams_deep obj [] = [] := rfl

theorem compute_cparams_deep_cons (obj : Fields) (k : List Char) (v : Value)
    (rest : Fields) :
    compute_cparams_deep obj ((k, v) :: rest) =
      (match diff_value_deep (lookupAttr obj k) v with
       | some w => (k, w) :: compute_cparams_deep obj rest
       | none => compute_cparams_deep obj rest) := by
  rw [compute_cparams_deep, List.filterMap_cons, compute_cparams_deep]
  cases diff_value_deep (lookupAttr obj k) v with
  | some w => rfl
  | none => rfl

theorem compute_cparams_deep_keys_sublist (obj : Fields) :
    ∀ params : Fields, (keysOf (compute_cparams_deep obj params)).Sublist (keysOf params) := by
  intro params
  induction params with
  | nil => exact List.Sublist.refl _
  | cons kv rest ih =>
    obtain ⟨k, v⟩ := kv
    rw [compute_cparams_deep_cons]
    cases diff_value_deep (lookupAttr obj k) v with
    | some w => exact ih.cons₂ k
    | none => exact ih.cons k

theorem compute_cparams_deep_lookup (obj : Fields) (k : List Char) (v : Value) :
    ∀ params : Fields, keysNodup params → (k, v) ∈ params →
      lookupAttr (compute_cparams_deep obj params) k =
        diff_value_deep (lookupAttr obj k) v := by
  intro params
  induction params with
  | nil => intro _ hmem; cases hmem
  | cons kv rest ih =>
    intro hnd hmem
    obtain ⟨k0, v0⟩ := kv
    obtain ⟨hnmem, hnd2⟩ := (keysNodup_cons k0 v0 rest).mp hnd
    rw [compute_cparams_deep_cons]
    rcases List.mem_cons.mp hmem with heq | hrest
    · injection heq with h1 h2
      subst h1; subst h2
      have hknotc : ¬ k ∈ keysOf (compute_cparams_deep obj rest) :=
        fun hm => hnmem ((compute_cparams_deep_keys_sublist obj rest).mem hm)
      cases hd : diff_value_deep (lookupAttr obj k) v with
      | some w => rw [lookupAttr_cons, if_pos rfl]
      | none => exact lookupAttr_eq_none_of_not_mem _ k hknotc
    · have hk0 : ¬ k0 = k := by
        intro hh
        exact hnmem (hh ▸ mem_keysOf_of_mem hrest)
      cases hd : diff_value_deep (lookupAttr obj k0) v0 with
      | some w =>
        rw [lookupAttr_cons, if_neg hk0]
        exact ih hnd2 hrest
      | none => exact ih hnd2 hrest

/-- For a normalization-fixed scalar desired value and an attribute present
on the remote object, the set-based and the DeepDiff-based diff decide the
same inclusion with the same written value, in any target state. -/
theorem diff_decision_scalar_agree (st : TState) (a : Scalar) (attr : Value)
    (hnn : ¬ a = Scalar.null)
    (hfix : format_value (.scalar a) = .scalar a) :
    diff_value st (some attr) (.scalar a) =
      .ok (diff_value_deep (some attr) (.scalar a)) := by
  have hvn : ¬ Value.scalar a = Value.null := by
    intro hh; injection hh with h1; exact hnn h1
  rw [diff_value, diff_value_deep]
  rw [hfix]
  rw [if_neg hvn, if_neg hvn, normCur_some, diffStep_scalar]
  have hiff : (Value.scalar a = format_value attr) ↔
      deepEqual (convert attr) (.scalar a) = true := by
    cases attr with
    | scalar b =>
      show (Value.scalar a = .scalar (stripScalar b)) ↔
        deepEqual (.scalar (stripScalar b)) (.scalar a) = true
      rw [show deepEqual (.scalar (stripScalar b)) (.scalar a) =
        decide (Value.scalar (stripScalar b) = .scalar a) from rfl]
      simp [eq_comm]
    | list xs =>
      show (Value.scalar a = .pyset xs.dedup) ↔
        deepEqual (.list (xs.map stripScalar)) (.scalar a) = true
      rw [show deepEqual (.list (xs.map stripScalar)) (.scalar a) =
        decide (Value.list (xs.map stripScalar) = .scalar a) from rfl]
      simp
    | pyset xs =>
      show (Value.scalar a = .pyset xs) ↔
        deepEqual (.pyset ((xs.map stripScalar).dedup)) (.scalar a) = true
      rw [show deepEqual (.pyset ((xs.map stripScalar).dedup)) (.scalar a) =
        decide (Value.pyset ((xs.map stripScalar).dedup) = .scalar a) from rfl]
      simp
  by_cases he : Value.scalar a = format_value attr
  · rw [if_pos he, if_pos (hiff.mp he)]
  · rw [if_neg he, if_neg (fun hh => he (hiff.mpr hh))]

/-- Counterexample for claim C5: the manual set-based diff and the
DeepDiff-based diff do not compute the same ChangeSet.  With current
`{a, b}` and desired `[b, c]` under `present`, the set engine writes the
union `{a, b, c}` while the deep engine writes the desired list `[b, c]`
verbatim, silently dropping `a`. -/
theorem spec_c5_counterexample :
    compute_cparams .present objAB paramsBC =
      .ok [(kM, .list (pyUnion [sA, sB] [sB, sC]))] ∧
    compute_cparams_deep objAB paramsBC = [(kM, .list [sB, sC])] ∧
    pyUnion [sA, sB] [sB, sC] = [sA, sB, sC] ∧
    ¬ Value.list (pyUnion [sA, sB] [sB, sC]) = .list [sB, sC] ∧
    sA ∈ pyUnion [sA, sB] [sB, sC] ∧ ¬ sA ∈ [sB, sC] := by
  exact ⟨by decide, by decide, by decide, by decide, by decide, by decide⟩

/-- Claim C5 (amended): the DeepDiff-based diff is not a refinement of the
set-union/set-difference semantics in general — it writes the desired
value verbatim (see the counterexample) — but the two variants agree, in
any target state, on fields present on the remote object whose desired
value is a non-null scalar fixed by normalization: both include the field
under the same condition and write the same value. -/
theorem spec_c5 (st : TState) (obj params cps : Fields) (k : List Char) (a : Scalar)
    (hnd : keysNodup params) (hmem : (k, Value.scalar a) ∈ params)
    (hnn : ¬ a = Scalar.null)
    (hfix : format_value (.scalar a) = .scalar a)
    (attr : Value) (hattr : lookupAttr obj k = some attr)
    (h : compute_cparams st obj params = .ok cps) :
    lookupAttr cps k = lookupAttr (compute_cparams_deep obj params) k := by
  obtain ⟨d, hd, hl⟩ := compute_cparams_lookup st obj k (.scalar a) params cps hnd hmem h
  rw [hl, compute_cparams_deep_lookup obj k (.scalar a) params hnd hmem]
  rw [hattr] at hd ⊢
  rw [diff_decision_scalar_agree st a attr hnn hfix] at hd
  injection hd with h1
  exact h1.symm

theorem spec_c5_witness :
    keysNodup [((['d'] : List Char), Value.scalar (.str ['x']))] ∧
    ((['d'] : List Char), Value.scalar (.str ['x'])) ∈
      [((['d'] : List Char), Value.scalar (.str ['x']))] ∧
    ¬ Scalar.str ['x'] = Scalar.null ∧
    format_value (.scalar (.str ['x'])) = .scalar (.str ['x']) ∧
    lookupAttr [((['d'] : List Char), Value.scalar (.str ['y']))] ['d'] =
      some (.scalar (.str ['y'])) ∧
    compute_cparams .present [((['d'] : List Char), Value.scalar (.str ['y']))]
      [((['d'] : List Char), Value.scalar (.str ['x']))] =
      .ok [((['d'] : List Char), Value.scalar (.str ['x']))] ∧
    lookupAttr [((['d'] : List Char), Value.scalar (.str ['x']))] ['d'] =
      lookupAttr (compute_cparams_deep [((['d'] : List Char), Value.scalar (.str ['y']))]
        [((['d'] : List Char), Value.scalar (.str ['x']))]) ['d'] := by
  refine ⟨by decide, by decide, by decide, by decide, by decide, by decide, ?_⟩
  exact spec_c5 .present [((['d'] : List Char), Value.scalar (.str ['y']))]
    [((['d'] : List Char), Value.scalar (.str ['x']))]
    [((['d'] : List Char), Value.scalar (.str ['x']))] ['d'] (.str ['x'])
    (by decide) (by decide) (by decide) (by decide)
    (.scalar (.str ['y'])) (by decide) (by decide)

/-- Counterexample for claim C3: (1) the first of two identical `present`
reconciliations is not always changed=true — on a remote already
satisfying the desired state it reports changed=false; (2) the
DeepDiff-based engine is not idempotent for desired values not fixed by
normalization: with desired string `" x"` it reports changed=true and
rewrites the field on every call, including the second. -/
theorem spec_c3_counterexample :
    bigip_named_flush ⟨false, [], [], []⟩ ⟨true, true⟩ .present
        ⟨true, [(['d'], Value.scalar (.str ['x']))]⟩
        [(['d'], Value.scalar (.str ['x']))] =
      .ok (false, ⟨true, [(['d'], Value.scalar (.str ['x']))]⟩, []) ∧
    base_named_flush ⟨false, [], [], []⟩ ⟨true, true⟩ .present
        ⟨true, [(['d'], Value.scalar (.str ['x']))]⟩
        [(['d'], Value.scalar (.str [' ', 'x']))] =
      .ok (true, ⟨true, [(['d'], Value.scalar (.str [' ', 'x']))]⟩, [.updateCall]) ∧
    base_named_flush ⟨false, [], [], []⟩ ⟨true, true⟩ .present
        ⟨true, [(['d'], Value.scalar (.str [' ', 'x']))]⟩
        [(['d'], Value.scalar (.str [' ', 'x']))] =
      .ok (true, ⟨true, [(['d'], Value.scalar (.str [' ', 'x']))]⟩, [.updateCall]) := by
  exact ⟨by decide, by decide, by decide⟩

/-- Claim C3 (amended): with the set-based engine, if the computed
ChangeSet is empty the update path returns changed=false, leaves the
remote untouched and issues zero update calls (a no-op is never reported
as changed); and for any starting remote state, reconciling `present`
twice with the same desired state (no external mutation, remote honouring
creates) yields changed=false and zero remote calls on the second run.
The first run is changed=true exactly when it did something (created the
resource or issued an update).  The DeepDiff-based engine does not satisfy
the idempotence part for desired values not fixed by normalization (see
the counterexample). -/
theorem spec_c3 (cfg : Config) (env : RemoteEnv) (r : Remote) (params : Fields)
    (b1 : Bool) (r1 : Remote) (tr1 : List RCall)
    (hcm : cfg.check_mode = false) (hce : env.createEffective = true)
    (hnd : keysNodup params)
    (hl : missing_required_params cfg.required_load params = none)
    (hu : missing_required_params cfg.required_update params = none)
    (first : bigip_named_flush cfg env .present r params = .ok (b1, r1, tr1)) :
    bigip_named_flush cfg env .present r1 params = .ok (false, r1, []) ∧
    (b1 = false → r1 = r ∧ tr1 = []) := by
  rw [bigip_named_flush] at first
  by_cases hf : r.found = true
  · rw [if_pos hf] at first
    rw [bigip_update, hl, hu] at first
    cases hcp : compute_cparams .present r.obj params with
    | error e => rw [hcp] at first; cases first
    | ok cps =>
      rw [hcp] at first
      dsimp only at first
      by_cases hnil : cps = []
      · rw [if_pos hnil] at first
        injection first with h1
        injection h1 with hb h2
        injection h2 with hr ht
        subst hr
        refine ⟨?_, fun _ => ⟨rfl, ht.symm⟩⟩
        rw [bigip_named_flush, if_pos hf, bigip_update, hl, hu, hcp]
        dsimp only
        rw [if_pos hnil]
      · rw [if_neg hnil, hcm] at first
        simp only [Bool.false_eq_true, if_false] at first
        injection first with h1
        injection h1 with hb h2
        injection h2 with hr ht
        refine ⟨?_, fun hb2 => absurd (hb ▸ hb2) (by simp)⟩
        have hr1f : r1.found = true := by rw [← hr]; exact hf
        rw [bigip_named_flush, if_pos hr1f, bigip_update, hl, hu]
        have hcp2 : compute_cparams .present r1.obj params = .ok [] := by
          rw [← hr]
          exact compute_cparams_applyUpdate .present params hnd r.obj cps hcp
        rw [hcp2]
        dsimp only
        rw [if_pos rfl]
  · rw [if_neg hf] at first
    rw [named_create] at first
    cases hc : missing_required_params cfg.required_create params with
    | some l => rw [hc] at first; cases first
    | none =>
      rw [hc, hcm, hce] at first
      simp at first
      obtain ⟨hb, hr, ht⟩ := first
      refine ⟨?_, fun hb2 => absurd (hb2 ▸ hb) (by simp)⟩
      have hr1f : r1.found = true := by rw [← hr]
      have hr1obj : r1.obj = params.filter (fun kv => decide (¬ kv.2 = Value.null)) := by
        rw [← hr]
        simp [decide_not]
      rw [bigip_named_flush, if_pos hr1f, bigip_update, hl, hu]
      have hcp2 : compute_cparams .present r1.obj params = .ok [] := by
        rw [hr1obj]
        exact compute_cparams_after_create params hnd
      rw [hcp2]
      dsimp only
      rw [if_pos rfl]

theorem spec_c3_witness :
    ((⟨false, [], [], []⟩ : Config).check_mode = false ∧
     (⟨true, true⟩ : RemoteEnv).createEffective = true ∧
     keysNodup paramsBC ∧
     missing_required_params ([] : List (List Char)) paramsBC = none ∧
     bigip_named_flush ⟨false, [], [], []⟩ ⟨true, true⟩ .present ⟨true, objAB⟩
        paramsBC =
       .ok (true, ⟨true, [(kM, .list [sA, sB, sC])]⟩, [.updateCall])) ∧
    bigip_named_flush ⟨false, [], [], []⟩ ⟨true, true⟩ .present
        ⟨true, [(kM, .list [sA, sB, sC])]⟩ paramsBC =
      .ok (false, ⟨true, [(kM, .list [sA, sB, sC])]⟩, []) := by
  refine ⟨⟨rfl, rfl, by decide, by decide, by decide⟩, ?_⟩
  exact (spec_c3 ⟨false, [], [], []⟩ ⟨true, true⟩ ⟨true, objAB⟩ paramsBC
    true ⟨true, [(kM, .list [sA, sB, sC])]⟩ [.updateCall]
    rfl rfl (by decide) (by decide) (by decide) (by decide)).1
